import Mathlib

set_option maxRecDepth 40000

/-!
Verification of the roman_photoz catalog-formatting and flux-rescaling logic.

The definitions below are shallow embeddings of the Python source:
* `format_catalog` embeds `RomanCatalogHandler.format_catalog`
  (roman_photoz/roman_catalog_handler.py), with numpy structured arrays
  modelled as row-counted association lists of named columns.
* `update_fluxes`, `njy_to_mgy`, `scale_flux`, `create_random_catalog` embed
  roman_photoz/update_romanisim_catalog_fluxes.py.
* `pick_random_lines` embeds `SimulatedCatalog._pick_random_lines`
  (roman_photoz/create_simulated_catalog.py).
* `trimColumn` embeds the per-band trimming of `create_files`
  (roman_photoz/create_roman_filters.py).
* `processStages`, `informer_model_path`, `informer_model_exists` embed the
  model-reuse logic of `RomanCatalogProcess` (roman_photoz/roman_catalog_process.py).
NumPy's seeded generator is modelled as a pure stream of naturals derived
from the seed (`seedStream`); the unseeded generator used by
`_pick_random_lines` is modelled as an arbitrary entropy function argument.
-/

/-- A cell value of a catalog column: numeric (fluxes, redshifts, labels,
context) or string (`string_data`). -/
inductive Val where
  | q : ℚ → Val
  | s : String → Val
deriving DecidableEq

/-- A numpy structured array: a row count plus named columns in order. -/
structure Catalog where
  numRows : Nat
  fields : List (String × List Val)
deriving DecidableEq

/-- The names of the fields of a catalog, in order (`arr.dtype.names`). -/
def fieldNames (c : Catalog) : List String := c.fields.map Prod.fst

/-- `name in arr.dtype.names`. -/
def hasField (c : Catalog) (name : String) : Bool := decide (name ∈ fieldNames c)

/-- `arr[name]`: the first column with the given name ([] if absent;
the Python code would raise a KeyError there). -/
def getField (c : Catalog) (name : String) : List Val :=
  ((c.fields.find? (fun p => p.1 == name)).map Prod.snd).getD []

/-- `numpy.lib.recfunctions.append_fields`: add a named column at the end. -/
def appendField (c : Catalog) (name : String) (col : List Val) : Catalog :=
  ⟨c.numRows, c.fields ++ [(name, col)]⟩

/-- `template.format(filter_id)` for a column-name template with one
placeholder, modelled as the (before, after) pieces around the `{}`. -/
def fmtT (t : String × String) (fid : String) : String := t.1 ++ fid ++ t.2

/-- `np.full(len(cat_array), -99)`: the LePhare "band unused" sentinel. -/
def sentinelCol (n : Nat) : List Val := List.replicate n (Val.q (-99))

/-- `np.zeros(len(cat_array))`. -/
def zeroCol (n : Nat) : List Val := List.replicate n (Val.q 0)

/-- `np.full(len(cat_array), "")`. -/
def emptyStrCol (n : Nat) : List Val := List.replicate n (Val.s "")

/-- The `FILTER_LIST` entry of `default_roman_config`
(roman_photoz/default_config_file.py). -/
def FILTER_LIST : String :=
  "roman/roman_F062.pb,roman/roman_F087.pb,roman/roman_F106.pb,roman/roman_F129.pb,roman/roman_F146.pb,roman/roman_F158.pb,roman/roman_F184.pb,roman/roman_F213.pb"

/-- Python `str.replace(pattern, "")` on character lists, fuel-recursive so
the kernel can evaluate it (the fuel is the input length, always enough since
every step consumes at least one character). -/
def eraseAllFuel (pat : List Char) : Nat → List Char → List Char
  | 0, l => l
  | _ + 1, [] => []
  | fuel + 1, c :: rest =>
    if pat.isPrefixOf (c :: rest) ∧ pat ≠ [] then
      eraseAllFuel pat fuel ((c :: rest).drop pat.length)
    else c :: eraseAllFuel pat fuel rest

/-- Python `str.replace(pattern, "")`. -/
def strEraseAll (s pat : String) : String :=
  ⟨eraseAllFuel pat.data s.data.length s.data⟩

/-- Python `str.split(",")` on character lists. -/
def splitComma : List Char → List (List Char)
  | [] => [[]]
  | c :: rest =>
    match splitComma rest with
    | [] => [[]]
    | h :: t => if c = ',' then [] :: h :: t else (c :: h) :: t

/-- Python `str.lower()`. -/
def strLower (s : String) : String := ⟨s.data.map Char.toLower⟩

/-- Python `str.upper()`. -/
def strUpper (s : String) : String := ⟨s.data.map Char.toUpper⟩

/-- `get_roman_filter_list` (roman_photoz/utils/roman_photoz_utils.py):
strip `.pb` and `roman/roman_` from the configured filter list, split on
commas, and upper- or lower-case the filter names. -/
def get_roman_filter_list (uppercase : Bool) : List String :=
  let filters := (splitComma (strEraseAll (strEraseAll FILTER_LIST ".pb")
    "roman/roman_").data).map (fun l => String.mk l)
  if uppercase then filters.map (fun f => strUpper f) else filters.map (fun f => strLower f)

/-- One iteration of the `for filter_id in self.filter_names` loop of
`RomanCatalogHandler.format_catalog`. -/
def formatStep (src : Catalog) (fitCol fitErrCol : String × String)
    (c : Catalog) (fid : String) : Catalog :=
  let fc := fmtT fitCol fid
  let fe := fmtT fitErrCol fid
  let value := if hasField src fc then getField src fc else sentinelCol src.numRows
  let error := if hasField src fc then getField src fe else sentinelCol src.numRows
  let c1 := if hasField c fc then c else appendField c fc value
  if hasField c1 fe then c1 else appendField c1 fe error

/-- The body of `format_catalog` after the empty-catalog re-initialization:
label column, per-filter flux/error columns, then context/zspec/string_data. -/
def formatBody (fitCol fitErrCol : String × String) (filters : List String)
    (src : Catalog) (cat1 : Catalog) : Catalog :=
  let cat2 := if hasField cat1 "label" then cat1 else
    appendField cat1 "label" (getField src "label")
  let cat3 := filters.foldl (formatStep src fitCol fitErrCol) cat2
  let cat4 := if hasField cat3 "context" then cat3 else
    appendField cat3 "context"
      (if hasField src "context" then getField src "context" else zeroCol src.numRows)
  let cat5 := if hasField cat4 "zspec" then cat4 else
    appendField cat4 "zspec"
      (if hasField src "zspec" then getField src "zspec" else zeroCol src.numRows)
  if hasField cat5 "string_data" then cat5 else
    appendField cat5 "string_data"
      (if hasField src "string_data" then getField src "string_data"
       else emptyStrCol src.numRows)

/-- `RomanCatalogHandler.format_catalog`: `src` is `self.cat_array`,
`cat0` is the current `self.catalog` (row count 0 standing for the empty or
`None` catalog that is re-initialized to `np.empty(len(cat_array), dtype=[])`). -/
def format_catalog (fitCol fitErrCol : String × String) (filters : List String)
    (src : Catalog) (cat0 : Catalog) : Catalog :=
  formatBody fitCol fitErrCol filters src
    (if cat0.numRows = 0 then Catalog.mk src.numRows [] else cat0)

/-- The instantiated flux and flux-error column names for a filter list. -/
def instNames (fitCol fitErrCol : String × String) (filters : List String) : List String :=
  filters.map (fmtT fitCol) ++ filters.map (fmtT fitErrCol)

/-! ## update_romanisim_catalog_fluxes.py -/

/-- An astropy `Table`: named numeric columns in order. -/
abbrev ATable := List (String × List ℚ)

/-- The column names of a table (`t.colnames`). -/
def colnamesA (t : ATable) : List String := t.map Prod.fst

/-- `name in t.colnames`. -/
def hasCol (t : ATable) (n : String) : Bool := t.any (fun p => p.1 == n)

/-- `t[name]` ([] when absent; Python would raise a KeyError there). -/
def getCol (t : ATable) (n : String) : List ℚ :=
  ((t.find? (fun p => p.1 == n)).map Prod.snd).getD []

/-- `t[name] = v`: replace the column when present, otherwise add it. -/
def setCol (t : ATable) (n : String) (v : List ℚ) : ATable :=
  if hasCol t n then t.map (fun p => if p.1 == n then (n, v) else p) else t ++ [(n, v)]

/-- `len(t)`: the number of rows of a table. -/
def numRowsA (t : ATable) : Nat :=
  match t with
  | [] => 0
  | c :: _ => c.2.length

/-- `njy_to_mgy`: nanojansky to maggies, 1 maggy = 3631 Jy = 3631e9 nJy. -/
def njy_to_mgy (x : ℚ) : ℚ := x / (3631 * 10 ^ 9)

/-- `njy_to_mgy` applied to a column. -/
def njyToMgyCol (xs : List ℚ) : List ℚ := xs.map njy_to_mgy

/-- `scale_flux`: multiply elementwise by the factor array, or return the
flux unchanged when no factor is given (`np.ones_like`). -/
def scale_flux (flux : List ℚ) (scaling_factor : Option (List ℚ)) : List ℚ :=
  match scaling_factor with
  | none => flux
  | some f => List.zipWith (fun a b => a * b) flux f

/-- The empirical brightness fudge factor of `update_fluxes`. -/
def fudge_factor : ℚ := 100

/-- The flux-catalog column name for a filter: `segment_<filter>_flux`. -/
def segName (cn : String) : String := "segment_" ++ strLower cn ++ "_flux"

/-- One iteration of the `for colname in filter_list` loop of `update_fluxes`. -/
def updateStep (target flux_catalog : ATable) (apply_scaling : Bool)
    (ref : String) (scaling_factor : Option (List ℚ)) (u : ATable) (cn : String) : ATable :=
  if hasCol u cn then
    if cn == ref then
      setCol u cn ((getCol target ref).map (fun x => x * fudge_factor))
    else
      let converted_flux := (njyToMgyCol (getCol flux_catalog (segName cn))).map
        (fun x => x * fudge_factor)
      if apply_scaling then setCol u cn (scale_flux converted_flux scaling_factor)
      else setCol u cn converted_flux
  else u

/-- The error message raised by `update_fluxes` for an empty flux catalog. -/
def invalid_flux_catalog_msg : String :=
  "flux_catalog is invalid. This likely indicates that the SimulatedCatalog.process() method did not return a catalog. Make sure to call process(return_catalog=True) when you need the catalog returned instead of saved to file."

/-- `update_fluxes` (roman_photoz/update_romanisim_catalog_fluxes.py). -/
def update_fluxes (target_catalog flux_catalog : ATable)
    (apply_scaling : Bool) (ref_filter : String) : Except String ATable :=
  if numRowsA flux_catalog = 0 then Except.error invalid_flux_catalog_msg
  else
    let ref := strUpper ref_filter
    let ref_target_vals := getCol target_catalog ref
    let ref_flux_vals := njyToMgyCol (getCol flux_catalog (segName ref))
    let scaling_factor :=
      if apply_scaling then
        some (List.zipWith (fun a b => a / b) ref_target_vals ref_flux_vals)
      else none
    let filter_list := get_roman_filter_list true
    let updated := target_catalog
    let updated := filter_list.foldl
      (updateStep target_catalog flux_catalog apply_scaling ref scaling_factor) updated
    let updated := setCol updated "label" (getCol flux_catalog "label")
    let updated := setCol updated "redshift_true" (getCol flux_catalog "redshift_true")
    Except.ok updated

/-! ## Sampling (create_random_catalog and _pick_random_lines) -/

/-- Model of NumPy's seeded PCG64 generator as a pure stream of naturals
derived from the seed: draw `i` of `default_rng(seed)` is `seedStream seed i`. -/
def seedStream (seed : Nat) : Nat → Nat :=
  fun i => (seed * 6364136223846793005 + i * 1442695040888963407 + 11) % 18446744073709551616

/-- Model of `rng.integers(low, high, size)`: `size` independent draws from
the half-open range `[low, high)`, or an error on an empty range
(NumPy raises `ValueError: low >= high` there). -/
def integersDraws (f : Nat → Nat) (low high : Int) (size : Nat) : Except String (List Int) :=
  if high ≤ low then Except.error "low >= high"
  else Except.ok ((List.range size).map (fun i => low + (f i : Int) % (high - low)))

/-- `create_random_catalog` (roman_photoz/update_romanisim_catalog_fluxes.py):
`n` draws from `rng.integers(0, len(table) - 1, size=n)`, then row selection. -/
def create_random_catalog (table : List (List ℚ)) (n : Nat) (seed : Nat) :
    Except String (List (List ℚ)) :=
  (integersDraws (seedStream seed) 0 ((table.length : Int) - 1) n).map
    (fun idx => idx.map (fun i => table.getD i.toNat []))

/-- Model of `rng.choice(total, num, replace=False)` restricted to a pool of
candidate indices: repeatedly pick a position in the remaining pool from the
entropy stream and remove the element picked. -/
def chooseNoReplace (f : Nat → Nat) : Nat → List Nat → List Nat
  | 0, _ => []
  | _ + 1, [] => []
  | k + 1, p@(_ :: _) =>
    let i := f k % p.length
    p.getD i 0 :: chooseNoReplace f k (p.eraseIdx i)

/-- The error message of `_pick_random_lines` for an oversized request. -/
def requested_available_msg (num_lines : Int) (total_lines : Nat) : String :=
  "Requested " ++ toString num_lines ++ " lines, but only " ++ toString total_lines ++
    " lines are available."

/-- The error message of `_pick_random_lines` for uninitialized data. -/
def not_initialized_msg : String :=
  "Data array is not initialized. Please run create_simulated_input_catalog first."

/-- `SimulatedCatalog._pick_random_lines`
(roman_photoz/create_simulated_catalog.py): `f` is the entropy of the
unseeded `default_rng()`, `simulated_data` is `self.simulated_data`. -/
def pick_random_lines (f : Nat → Nat) (simulated_data : Option (List (List ℚ)))
    (num_lines : Int) : Except String (Option (List (List ℚ))) :=
  if 0 < num_lines then
    match simulated_data with
    | none => Except.error not_initialized_msg
    | some d =>
      if num_lines > (d.length : Int) then
        Except.error (requested_available_msg num_lines d.length)
      else
        Except.ok (some ((chooseNoReplace f num_lines.toNat (List.range d.length)).map
          (fun i => d.getD i [])))
  else Except.ok simulated_data

/-! ## create_roman_filters.py: per-band trimming in create_files -/

/-- `np.flatnonzero(data[col] > 0)`: indices of positive throughput, in order. -/
def nzIndices (col : List ℚ) : List Nat :=
  (List.range col.length).filter (fun i => decide (0 < col.getD i 0))

/-- The per-band trimming of `create_files`: with `mn`/`mx` the first/last
positive index and `buf = 5`, keep the slice `[max(0, mn - 5), min(len, mx + 5))`
(an empty result models the `np.min` crash on an all-zero band). -/
def trimColumn (col : List ℚ) : List ℚ :=
  match (nzIndices col).head?, (nzIndices col).getLast? with
  | some mn, some mx => (col.take (min col.length (mx + 5))).drop (mn - 5)
  | _, _ => []

/-- The trimming as the spec claims it: the non-zero region plus five padding
samples on each side inclusive, clipped at the boundaries. Stated from the
spec's words for comparison with `trimColumn`. -/
def trimColumnClaimed (col : List ℚ) : List ℚ :=
  match (nzIndices col).head?, (nzIndices col).getLast? with
  | some mn, some mx => (col.take (min col.length (mx + 5 + 1))).drop (mn - 5)
  | _, _ => []

/-! ## roman_catalog_process.py: model reuse policy -/

/-- The process environment, `os.environ`. -/
abbrev Env := List (String × String)

/-- `os.environ.get(k)`. -/
def envGet (env : Env) (k : String) : Option String :=
  (env.find? (fun p => p.1 == k)).map Prod.snd

/-- `Path(dir, file).as_posix()`. -/
def joinPath (dir file : String) : String :=
  if dir = "" then file else dir ++ "/" ++ file

/-- `RomanCatalogProcess.informer_model_path`: the directory from
`INFORMER_MODEL_PATH`, falling back to `LEPHAREWORK`, joined with the
caller-chosen model filename. -/
def informer_model_path (env : Env) (model_filename : String) : String :=
  joinPath ((envGet env "INFORMER_MODEL_PATH").getD ((envGet env "LEPHAREWORK").getD ""))
    model_filename

/-- `RomanCatalogProcess.informer_model_exists`: a pure existence check of
the model path against the set `fs` of paths present on the filesystem. -/
def informer_model_exists (fs : List String) (env : Env) (model_filename : String) : Bool :=
  fs.contains (informer_model_path env model_filename)

/-- The pipeline stages `RomanCatalogProcess.process` can run. -/
inductive Stage where
  | inform
  | estimate
  | saveResults
  | updateInput
deriving DecidableEq

/-- The stages executed by `RomanCatalogProcess.process`, in order: the
inform (training) stage exactly when no informer model file exists, then the
estimate stage, then saving or in-place update of the input. -/
def processStages (fs : List String) (env : Env) (model_filename : String)
    (save_results : Bool) : List Stage :=
  (if informer_model_exists fs env model_filename then [] else [Stage.inform]) ++
    [Stage.estimate] ++
    (if save_results then [Stage.saveResults] else [Stage.updateInput])

/-- Which model the estimator stage is given (`create_estimator_stage`):
the persisted file when it exists, else the in-memory handle just trained. -/
inductive ModelSource where
  | file : String → ModelSource
  | handle : ModelSource
deriving DecidableEq

/-- The model passed to `LephareEstimator.make_stage`. -/
def estimator_model (fs : List String) (env : Env) (model_filename : String) : ModelSource :=
  if informer_model_exists fs env model_filename then
    ModelSource.file (informer_model_path env model_filename)
  else ModelSource.handle

/-! ## Heap model for the frame property of update_fluxes -/

/-- A store of table objects; a Python variable holding a `Table` is an
index into the store. -/
abbrev Store := List ATable

/-- `σ[r][n] = v`: mutate column `n` of the table at reference `r`. -/
def writeColS (σ : Store) (r : Nat) (n : String) (v : List ℚ) : Store :=
  σ.set r (setCol (σ.getD r []) n v)

/-- One loop iteration of `update_fluxes`, acting on the store: reads go to
the original target (`tRef`) and flux (`fRef`) tables, writes to the copy
(`newRef`). -/
def updateStepS (tRef fRef newRef : Nat) (apply_scaling : Bool) (ref : String)
    (scaling_factor : Option (List ℚ)) (σ : Store) (cn : String) : Store :=
  if hasCol (σ.getD newRef []) cn then
    if cn == ref then
      writeColS σ newRef cn ((getCol (σ.getD tRef []) ref).map (fun x => x * fudge_factor))
    else
      let converted_flux := (njyToMgyCol (getCol (σ.getD fRef []) (segName cn))).map
        (fun x => x * fudge_factor)
      if apply_scaling then
        writeColS σ newRef cn (scale_flux converted_flux scaling_factor)
      else writeColS σ newRef cn converted_flux
  else σ

/-- `update_fluxes` on the store model: allocate the copy
(`updated_catalog = target_catalog.copy()`), run the loop and the final
label/redshift_true writes against the copy, and return the new reference. -/
def update_fluxes_heap (σ : Store) (tRef fRef : Nat) (apply_scaling : Bool)
    (ref_filter : String) : Except String (Store × Nat) :=
  if numRowsA (σ.getD fRef []) = 0 then Except.error invalid_flux_catalog_msg
  else
    let ref := strUpper ref_filter
    let scaling_factor :=
      if apply_scaling then
        some (List.zipWith (fun a b => a / b) (getCol (σ.getD tRef []) ref)
          (njyToMgyCol (getCol (σ.getD fRef []) (segName ref))))
      else none
    let newRef := σ.length
    let σ1 := σ ++ [σ.getD tRef []]
    let σ2 := (get_roman_filter_list true).foldl
      (updateStepS tRef fRef newRef apply_scaling ref scaling_factor) σ1
    let σ3 := writeColS σ2 newRef "label" (getCol (σ2.getD fRef []) "label")
    let σ4 := writeColS σ3 newRef "redshift_true" (getCol (σ3.getD fRef []) "redshift_true")
    Except.ok (σ4, newRef)

/-! ## Spec-side definition and concrete inputs -/

/-- The unit conversion the spec attributes to catalog formatting, stated
from the spec's words for comparison: multiply every (numeric) entry by the
nanojansky to erg/s/cm2/Hz factor 10 to the minus 32. -/
def convertNjyToErg (col : List Val) : List Val :=
  col.map (fun v =>
    match v with
    | Val.q x => Val.q (x * (1 / 10 ^ 32))
    | v => v)

/-- The `segment_{}_flux` column template. -/
def segTmpl : String × String := ("segment_", "_flux")

/-- The `segment_{}_flux_err` column template. -/
def segErrTmpl : String × String := ("segment_", "_flux_err")

/-- A one-object source catalog whose only flux band is f062, with a
positive error (5): all other bands are absent. -/
def srcEx : Catalog :=
  ⟨1, [("label", [Val.q 1]), ("segment_f062_flux", [Val.q 100]),
       ("segment_f062_flux_err", [Val.q 5])]⟩

/-- `srcEx` formatted from a fresh catalog. -/
def outEx : Catalog :=
  format_catalog segTmpl segErrTmpl (get_roman_filter_list false) srcEx ⟨0, []⟩

/-- A band column with one positive sample at index 6 and more than five
zero samples on either side. -/
def col7 : List ℚ := [0, 0, 0, 0, 0, 0, 1, 0, 0, 0, 0, 0, 0]

/-- A two-row table. -/
def tblTwo : List (List ℚ) := [[1], [2]]

/-- A three-row table. -/
def tblThree : List (List ℚ) := [[1], [2], [3]]

/-- The sample drawn from `tblThree` with n = 2 and seed 7. -/
def rows9 : List (List ℚ) := ((create_random_catalog tblThree 2 7).toOption).getD []

/-- The target catalog of the spec's update-fluxes example. -/
def tgt5 : ATable := [("F213", [1, 2]), ("F184", [3, 4])]

/-- The flux catalog of the spec's update-fluxes example (fluxes in nJy). -/
def flx5 : ATable :=
  [("segment_f213_flux", [1000000000, 2000000000]),
   ("segment_f184_flux", [3000000000, 4000000000]),
   ("label", [10, 20]), ("redshift_true", [1/10, 2/10])]

/-- The result of the no-scaling update on the example. -/
def u5 : ATable := ((update_fluxes tgt5 flx5 false "F213").toOption).getD []

/-- The result of the scaling update on the example. -/
def v5 : ATable := ((update_fluxes tgt5 flx5 true "F213").toOption).getD []

/-- A two-table store: the target at reference 0, the flux catalog at 1. -/
def store10 : Store := [tgt5, flx5]

/-- The store and reference returned by the heap run on `store10`. -/
def heapOut : Store × Nat :=
  ((update_fluxes_heap store10 0 1 false "F213").toOption).getD ([], 0)

/-! ## Lemmas about catalogs and format_catalog -/

lemma hasField_iff {c : Catalog} {n : String} : hasField c n = true ↔ n ∈ fieldNames c := by
  simp [hasField]

lemma hasField_false_iff {c : Catalog} {n : String} :
    hasField c n = false ↔ n ∉ fieldNames c := by
  simp [hasField]

lemma fieldNames_appendField (c : Catalog) (n : String) (col : List Val) :
    fieldNames (appendField c n col) = fieldNames c ++ [n] := by
  simp [fieldNames, appendField]

lemma getField_appendField_of_ne {c : Catalog} {n m : String} (col : List Val) (h : m ≠ n) :
    getField (appendField c n col) m = getField c m := by
  unfold getField appendField
  simp only [List.find?_append]
  cases hf : c.fields.find? (fun p => p.1 == m) with
  | some p => simp [hf]
  | none =>
    have : (n == m) = false := by
      simp only [beq_eq_false_iff_ne]
      exact fun he => h he.symm
    simp [hf, List.find?_cons, this]

lemma getField_appendField_self {c : Catalog} {n : String} (col : List Val)
    (h : hasField c n = false) :
    getField (appendField c n col) n = col := by
  have hnone : c.fields.find? (fun p => p.1 == n) = none := by
    rw [List.find?_eq_none]
    intro p hp
    simp only [beq_iff_eq]
    intro hpn
    rw [hasField_false_iff] at h
    exact h (hpn ▸ List.mem_map_of_mem Prod.fst hp)
  unfold getField appendField
  simp [List.find?_append, hnone, List.find?_cons]

lemma hasField_appendField_iff {c : Catalog} {n m : String} {col : List Val} :
    hasField (appendField c n col) m = true ↔ hasField c m = true ∨ m = n := by
  simp [hasField_iff, fieldNames_appendField]

lemma getField_ite_append {c : Catalog} {m fc : String} {col : List Val}
    (h : hasField c fc = true) :
    getField (if hasField c m then c else appendField c m col) fc = getField c fc := by
  split
  · rfl
  · next hm =>
    refine getField_appendField_of_ne col ?_
    intro he
    exact hm (he ▸ h)

lemma hasField_ite_append_self {c : Catalog} {m : String} {col : List Val} :
    hasField (if hasField c m then c else appendField c m col) m = true := by
  split
  · next h => exact h
  · exact hasField_appendField_iff.mpr (Or.inr rfl)

lemma hasField_ite_append_mono {c : Catalog} {m x : String} {col : List Val}
    (h : hasField c x = true) :
    hasField (if hasField c m then c else appendField c m col) x = true := by
  split
  · exact h
  · exact hasField_appendField_iff.mpr (Or.inl h)

lemma numRows_ite_append {c : Catalog} {m : String} {col : List Val} :
    (if hasField c m then c else appendField c m col).numRows = c.numRows := by
  split <;> rfl

lemma numRows_appendField (c : Catalog) (n : String) (col : List Val) :
    (appendField c n col).numRows = c.numRows := rfl

lemma numRows_formatStep (src : Catalog) (t1 t2 : String × String) (c : Catalog)
    (fid : String) :
    (formatStep src t1 t2 c fid).numRows = c.numRows := by
  simp only [formatStep]
  by_cases h1 : hasField c (fmtT t1 fid) = true
  · rw [if_pos h1, numRows_ite_append]
  · rw [if_neg h1, numRows_ite_append, numRows_appendField]

lemma hasField_formatStep_mono {src : Catalog} {t1 t2 : String × String} {c : Catalog}
    {fid m : String} (h : hasField c m = true) :
    hasField (formatStep src t1 t2 c fid) m = true := by
  simp only [formatStep]
  split
  · next h1 => exact hasField_ite_append_mono h
  · next h1 =>
    apply hasField_ite_append_mono
    exact hasField_appendField_iff.mpr (Or.inl h)

lemma hasField_formatStep_of {src : Catalog} {t1 t2 : String × String} {c : Catalog}
    {fid m : String} (h : hasField (formatStep src t1 t2 c fid) m = true) :
    hasField c m = true ∨ m = fmtT t1 fid ∨ m = fmtT t2 fid := by
  simp only [formatStep] at h
  revert h
  split
  · next h1 =>
    intro h
    by_cases h2 : hasField c (fmtT t2 fid) = true
    · rw [if_pos h2] at h
      exact Or.inl h
    · rw [if_neg h2] at h
      rcases hasField_appendField_iff.mp h with h3 | h3
      · exact Or.inl h3
      · exact Or.inr (Or.inr h3)
  · next h1 =>
    intro h
    by_cases h2 : hasField (appendField c (fmtT t1 fid)
        (if hasField src (fmtT t1 fid) then getField src (fmtT t1 fid)
         else sentinelCol src.numRows)) (fmtT t2 fid) = true
    · rw [if_pos h2] at h
      rcases hasField_appendField_iff.mp h with h3 | h3
      · exact Or.inl h3
      · exact Or.inr (Or.inl h3)
    · rw [if_neg h2] at h
      rcases hasField_appendField_iff.mp h with h3 | h3
      · rcases hasField_appendField_iff.mp h3 with h4 | h4
        · exact Or.inl h4
        · exact Or.inr (Or.inl h4)
      · exact Or.inr (Or.inr h3)

lemma getField_formatStep_of_has {src : Catalog} {t1 t2 : String × String} {c : Catalog}
    {fid m : String} (h : hasField c m = true) :
    getField (formatStep src t1 t2 c fid) m = getField c m := by
  simp only [formatStep]
  split
  · next h1 => exact getField_ite_append h
  · next h1 =>
    have hm1 : m ≠ fmtT t1 fid := by
      intro he
      exact absurd (he ▸ h) (by simp [h1])
    have h2 : hasField (appendField c (fmtT t1 fid)
        (if hasField src (fmtT t1 fid) then getField src (fmtT t1 fid)
         else sentinelCol src.numRows)) m = true :=
      hasField_appendField_iff.mpr (Or.inl h)
    rw [getField_ite_append h2]
    exact getField_appendField_of_ne _ hm1

lemma hasField_formatStep_self1 {src : Catalog} {t1 t2 : String × String} {c : Catalog}
    {fid : String} :
    hasField (formatStep src t1 t2 c fid) (fmtT t1 fid) = true := by
  simp only [formatStep]
  split
  · next h1 => exact hasField_ite_append_mono h1
  · next h1 =>
    apply hasField_ite_append_mono
    exact hasField_appendField_iff.mpr (Or.inr rfl)

lemma hasField_formatStep_self2 {src : Catalog} {t1 t2 : String × String} {c : Catalog}
    {fid : String} :
    hasField (formatStep src t1 t2 c fid) (fmtT t2 fid) = true := by
  simp only [formatStep]
  split <;> exact hasField_ite_append_self

lemma formatStep_eq_self {src : Catalog} {t1 t2 : String × String} {c : Catalog}
    {fid : String} (h1 : hasField c (fmtT t1 fid) = true)
    (h2 : hasField c (fmtT t2 fid) = true) :
    formatStep src t1 t2 c fid = c := by
  simp only [formatStep]
  rw [if_pos h1, if_pos h2]

lemma getField_formatStep_new (src : Catalog) {t1 t2 : String × String} {c : Catalog}
    {fid : String} (hfc : hasField c (fmtT t1 fid) = false)
    (hfe : hasField c (fmtT t2 fid) = false) (hne : fmtT t1 fid ≠ fmtT t2 fid) :
    getField (formatStep src t1 t2 c fid) (fmtT t1 fid) =
      (if hasField src (fmtT t1 fid) then getField src (fmtT t1 fid)
       else sentinelCol src.numRows) ∧
    getField (formatStep src t1 t2 c fid) (fmtT t2 fid) =
      (if hasField src (fmtT t1 fid) then getField src (fmtT t2 fid)
       else sentinelCol src.numRows) := by
  have hfe1 : hasField (appendField c (fmtT t1 fid)
      (if hasField src (fmtT t1 fid) then getField src (fmtT t1 fid)
       else sentinelCol src.numRows)) (fmtT t2 fid) = false := by
    rw [Bool.eq_false_iff]
    intro hx
    rcases hasField_appendField_iff.mp hx with h3 | h3
    · rw [h3] at hfe; cases hfe
    · exact hne h3.symm
  simp only [formatStep]
  rw [if_neg (by simp [hfc, hfe1])]
  rw [if_neg (by simp [hfc])]
  constructor
  · rw [getField_appendField_of_ne _ (fun he => hne he), getField_appendField_self _ hfc]
  · exact getField_appendField_self _ hfe1

lemma hasField_foldl_mono {src : Catalog} {t1 t2 : String × String} {l : List String}
    {c : Catalog} {m : String} (h : hasField c m = true) :
    hasField (l.foldl (formatStep src t1 t2) c) m = true := by
  induction l generalizing c with
  | nil => exact h
  | cons a rest ih => exact ih (hasField_formatStep_mono h)

lemma getField_foldl_of_has {src : Catalog} {t1 t2 : String × String} {l : List String}
    {c : Catalog} {m : String} (h : hasField c m = true) :
    getField (l.foldl (formatStep src t1 t2) c) m = getField c m := by
  induction l generalizing c with
  | nil => rfl
  | cons a rest ih =>
    rw [List.foldl_cons, ih (hasField_formatStep_mono h), getField_formatStep_of_has h]

lemma numRows_foldl (src : Catalog) (t1 t2 : String × String) (l : List String)
    (c : Catalog) :
    (l.foldl (formatStep src t1 t2) c).numRows = c.numRows := by
  induction l generalizing c with
  | nil => rfl
  | cons a rest ih => rw [List.foldl_cons, ih, numRows_formatStep]

lemma hasField_foldl_of_mem {src : Catalog} {t1 t2 : String × String} {l : List String}
    {c : Catalog} {fid : String} (h : fid ∈ l) :
    hasField (l.foldl (formatStep src t1 t2) c) (fmtT t1 fid) = true ∧
    hasField (l.foldl (formatStep src t1 t2) c) (fmtT t2 fid) = true := by
  induction l generalizing c with
  | nil => cases h
  | cons a rest ih =>
    rcases List.mem_cons.mp h with h1 | h1
    · subst h1
      rw [List.foldl_cons]
      exact ⟨hasField_foldl_mono hasField_formatStep_self1,
             hasField_foldl_mono hasField_formatStep_self2⟩
    · rw [List.foldl_cons]
      exact ih h1

lemma nodup_instNames_cons {t1 t2 : String × String} {a : String} {rest : List String}
    (h : (instNames t1 t2 (a :: rest)).Nodup) :
    fmtT t1 a ≠ fmtT t2 a ∧ fmtT t1 a ∉ instNames t1 t2 rest ∧
    fmtT t2 a ∉ instNames t1 t2 rest ∧ (instNames t1 t2 rest).Nodup := by
  simp only [instNames, List.map_cons] at h
  rw [List.nodup_append] at h
  obtain ⟨h1, h2, hdisj⟩ := h
  rw [List.nodup_cons] at h1 h2
  rw [List.disjoint_cons_left, List.disjoint_cons_right] at hdisj
  obtain ⟨ha, hb, hd2⟩ := hdisj
  simp only [List.mem_cons] at ha
  push_neg at ha
  refine ⟨ha.1, ?_, ?_, ?_⟩
  · simp only [instNames, List.mem_append]
    push_neg
    exact ⟨h1.1, ha.2⟩
  · simp only [instNames, List.mem_append]
    push_neg
    exact ⟨hb, h2.1⟩
  · simp only [instNames]
    rw [List.nodup_append]
    exact ⟨h1.2, h2.2, hd2⟩

lemma getField_foldl_of_mem (src : Catalog) {t1 t2 : String × String} (l : List String)
    (c : Catalog) (hnodup : (instNames t1 t2 l).Nodup)
    (hfresh : ∀ n ∈ instNames t1 t2 l, hasField c n = false) :
    ∀ fid ∈ l,
      getField (l.foldl (formatStep src t1 t2) c) (fmtT t1 fid) =
        (if hasField src (fmtT t1 fid) then getField src (fmtT t1 fid)
         else sentinelCol src.numRows) ∧
      getField (l.foldl (formatStep src t1 t2) c) (fmtT t2 fid) =
        (if hasField src (fmtT t1 fid) then getField src (fmtT t2 fid)
         else sentinelCol src.numRows) := by
  induction l generalizing c with
  | nil => intro fid h; cases h
  | cons a rest ih =>
    obtain ⟨hne, hna1, hna2, hnd⟩ := nodup_instNames_cons hnodup
    have hfa1 : hasField c (fmtT t1 a) = false :=
      hfresh _ (by simp [instNames, List.mem_append])
    have hfa2 : hasField c (fmtT t2 a) = false :=
      hfresh _ (by simp [instNames, List.mem_append])
    intro fid hmem
    rcases List.mem_cons.mp hmem with h1 | h1
    · subst h1
      obtain ⟨hv, he⟩ := getField_formatStep_new src hfa1 hfa2 hne
      rw [List.foldl_cons]
      constructor
      · rw [getField_foldl_of_has hasField_formatStep_self1, hv]
      · rw [getField_foldl_of_has hasField_formatStep_self2, he]
    · rw [List.foldl_cons]
      refine ih (formatStep src t1 t2 c a) hnd ?_ fid h1
      intro n hn
      rw [Bool.eq_false_iff]
      intro hx
      rcases hasField_formatStep_of hx with h2 | h2 | h2
      · have := hfresh n (by
          simp only [instNames, List.mem_append] at hn ⊢
          rcases hn with hn | hn
          · exact Or.inl (List.mem_cons_of_mem _ hn)
          · exact Or.inr (List.mem_cons_of_mem _ hn))
        rw [this] at h2
        cases h2
      · exact hna1 (h2 ▸ hn)
      · exact hna2 (h2 ▸ hn)

lemma format_catalog_empty (t1 t2 : String × String) (filters : List String)
    (src : Catalog) :
    format_catalog t1 t2 filters src ⟨0, []⟩ =
      formatBody t1 t2 filters src ⟨src.numRows, []⟩ := rfl

lemma getField_formatBody {t1 t2 : String × String} {filters : List String}
    {src cat1 : Catalog} {m : String}
    (hm : hasField (filters.foldl (formatStep src t1 t2)
      (if hasField cat1 "label" then cat1
       else appendField cat1 "label" (getField src "label"))) m = true) :
    getField (formatBody t1 t2 filters src cat1) m =
      getField (filters.foldl (formatStep src t1 t2)
        (if hasField cat1 "label" then cat1
         else appendField cat1 "label" (getField src "label"))) m := by
  simp only [formatBody]
  rw [getField_ite_append (hasField_ite_append_mono (hasField_ite_append_mono hm)),
      getField_ite_append (hasField_ite_append_mono hm),
      getField_ite_append hm]

lemma format_spec (t1 t2 : String × String) (filters : List String) (src : Catalog)
    (hnodup : ("label" :: instNames t1 t2 filters).Nodup)
    (fid : String) (hmem : fid ∈ filters) :
    getField (format_catalog t1 t2 filters src ⟨0, []⟩) (fmtT t1 fid) =
      (if hasField src (fmtT t1 fid) then getField src (fmtT t1 fid)
       else sentinelCol src.numRows) ∧
    getField (format_catalog t1 t2 filters src ⟨0, []⟩) (fmtT t2 fid) =
      (if hasField src (fmtT t1 fid) then getField src (fmtT t2 fid)
       else sentinelCol src.numRows) := by
  have hlab := (List.nodup_cons.mp hnodup).1
  have hnd := (List.nodup_cons.mp hnodup).2
  have hempty : ∀ n, hasField (Catalog.mk src.numRows []) n = false := by
    intro n
    simp [hasField, fieldNames]
  have hguard : (if hasField (Catalog.mk src.numRows []) "label"
      then (Catalog.mk src.numRows [])
      else appendField (Catalog.mk src.numRows []) "label" (getField src "label")) =
      appendField (Catalog.mk src.numRows []) "label" (getField src "label") := by
    rw [if_neg (by simp [hempty])]
  have hfresh : ∀ n ∈ instNames t1 t2 filters,
      hasField (appendField (Catalog.mk src.numRows []) "label" (getField src "label"))
        n = false := by
    intro n hn
    rw [Bool.eq_false_iff]
    intro hx
    rcases hasField_appendField_iff.mp hx with h2 | h2
    · rw [hempty n] at h2
      cases h2
    · exact hlab (h2 ▸ hn)
  have hvals := getField_foldl_of_mem src filters
    (appendField (Catalog.mk src.numRows []) "label" (getField src "label"))
    hnd hfresh fid hmem
  have hpres := @hasField_foldl_of_mem src t1 t2 filters
    (appendField (Catalog.mk src.numRows []) "label" (getField src "label")) fid hmem
  rw [format_catalog_empty]
  constructor
  · rw [getField_formatBody (by rw [hguard]; exact hpres.1), hguard]
    exact hvals.1
  · rw [getField_formatBody (by rw [hguard]; exact hpres.2), hguard]
    exact hvals.2

/-- C1: for every configured filter whose templated flux column is absent from
the source catalog, `format_catalog` fills both the flux column and the
flux-error column for that filter with the sentinel value -99 for every object;
when the templated columns are present in the source, their values are copied
unchanged. -/
theorem format_catalog_sentinel_fill_and_copy
    (t1 t2 : String × String) (filters : List String) (src : Catalog)
    (hnodup : ("label" :: instNames t1 t2 filters).Nodup)
    (fid : String) (hmem : fid ∈ filters) :
    (hasField src (fmtT t1 fid) = false →
      getField (format_catalog t1 t2 filters src ⟨0, []⟩) (fmtT t1 fid) =
        List.replicate src.numRows (Val.q (-99)) ∧
      getField (format_catalog t1 t2 filters src ⟨0, []⟩) (fmtT t2 fid) =
        List.replicate src.numRows (Val.q (-99))) ∧
    (hasField src (fmtT t1 fid) = true →
      getField (format_catalog t1 t2 filters src ⟨0, []⟩) (fmtT t1 fid) =
        getField src (fmtT t1 fid) ∧
      getField (format_catalog t1 t2 filters src ⟨0, []⟩) (fmtT t2 fid) =
        getField src (fmtT t2 fid)) := by
  obtain ⟨hv, he⟩ := format_spec t1 t2 filters src hnodup fid hmem
  constructor
  · intro h
    rw [hv, he, if_neg (by simp [h]), if_neg (by simp [h])]
    exact ⟨rfl, rfl⟩
  · intro h
    rw [hv, he, if_pos h, if_pos h]
    exact ⟨rfl, rfl⟩

/-- Witness for C1: in `srcEx` the f184 flux column is absent, so the
formatted catalog carries the sentinel -99 for it. -/
theorem format_catalog_sentinel_fill_and_copy_witness :
    getField (format_catalog segTmpl segErrTmpl (get_roman_filter_list false) srcEx
      ⟨0, []⟩) "segment_f184_flux" = List.replicate 1 (Val.q (-99)) :=
  ((format_catalog_sentinel_fill_and_copy segTmpl segErrTmpl
      (get_roman_filter_list false) srcEx (by decide) "f184" (by decide)).1
    (by decide)).1

lemma map_eq_self_of_eq {α : Type} {f : α → α} {l : List α} (h : l.map f = l) :
    ∀ x ∈ l, f x = x := by
  induction l with
  | nil => intro x hx; cases hx
  | cons a rest ih =>
    rw [List.map_cons, List.cons_eq_cons] at h
    intro x hx
    rcases List.mem_cons.mp hx with hx | hx
    · exact hx ▸ h.1
    · exact ih h.2 x hx

lemma convertNjyToErg_ne {col : List Val} (h : ∃ x : ℚ, x ≠ 0 ∧ Val.q x ∈ col) :
    col ≠ convertNjyToErg col := by
  obtain ⟨x, hx, hmem⟩ := h
  intro he
  simp only [convertNjyToErg] at he
  have hpt := map_eq_self_of_eq he.symm (Val.q x) hmem
  simp only [Val.q.injEq] at hpt
  have : x * (1 / 10 ^ 32) ≠ x := by
    intro hq
    have h1 : x * (1 / 10 ^ 32 - 1) = 0 := by ring_nf; ring_nf at hq; linarith
    rcases mul_eq_zero.mp h1 with h2 | h2
    · exact hx h2
    · norm_num at h2
  exact this hpt

/-- C2 counterexample: `srcEx` has the positive-error pair (100, 5) for the
f062 band, yet formatting copies it unchanged, so the pair is not multiplied
by the factor 10 to the minus 32 that the claim requires. -/
theorem format_catalog_conversion_counterexample :
    getField outEx "segment_f062_flux" = [Val.q 100] ∧
    getField outEx "segment_f062_flux_err" = [Val.q 5] ∧
    getField outEx "segment_f062_flux" ≠
      convertNjyToErg (getField srcEx "segment_f062_flux") := by
  refine ⟨by decide, by decide, ?_⟩
  rw [show getField outEx "segment_f062_flux" = [Val.q 100] from by decide,
      show getField srcEx "segment_f062_flux" = [Val.q 100] from by decide]
  exact convertNjyToErg_ne ⟨100, by norm_num, by simp⟩

/-- C2 (amended): `format_catalog` applies no unit conversion at all: present
flux/flux-error pairs (positive error or not) are copied with their values
exactly unchanged — in particular not multiplied by 10 to the minus 32 — and
sentinel (-99, -99) pairs are left exactly unchanged. -/
theorem format_catalog_no_unit_conversion
    (t1 t2 : String × String) (filters : List String) (src : Catalog)
    (hnodup : ("label" :: instNames t1 t2 filters).Nodup)
    (fid : String) (hmem : fid ∈ filters)
    (hpres : hasField src (fmtT t1 fid) = true)
    (hnz : ∃ x : ℚ, x ≠ 0 ∧ Val.q x ∈ getField src (fmtT t1 fid)) :
    getField (format_catalog t1 t2 filters src ⟨0, []⟩) (fmtT t1 fid) =
      getField src (fmtT t1 fid) ∧
    getField (format_catalog t1 t2 filters src ⟨0, []⟩) (fmtT t2 fid) =
      getField src (fmtT t2 fid) ∧
    getField (format_catalog t1 t2 filters src ⟨0, []⟩) (fmtT t1 fid) ≠
      convertNjyToErg (getField src (fmtT t1 fid)) := by
  obtain ⟨hv, he⟩ := format_spec t1 t2 filters src hnodup fid hmem
  rw [hv, he, if_pos hpres, if_pos hpres]
  exact ⟨rfl, rfl, convertNjyToErg_ne hnz⟩

/-- Witness for the amended C2: the f062 pair of `srcEx` is copied, not
converted. -/
theorem format_catalog_no_unit_conversion_witness :
    getField (format_catalog segTmpl segErrTmpl (get_roman_filter_list false) srcEx
      ⟨0, []⟩) "segment_f062_flux" ≠
      convertNjyToErg (getField srcEx "segment_f062_flux") :=
  (format_catalog_no_unit_conversion segTmpl segErrTmpl (get_roman_filter_list false)
    srcEx (by decide) "f062" (by decide) (by decide) ⟨100, by decide, by decide⟩).2.2

lemma fieldNames_nodup_ite_append {c : Catalog} {m : String} {col : List Val}
    (h : (fieldNames c).Nodup) :
    (fieldNames (if hasField c m then c else appendField c m col)).Nodup := by
  split
  · exact h
  · next hm =>
    have hm' : m ∉ fieldNames c := by rwa [Bool.not_eq_true, hasField_false_iff] at hm
    rw [fieldNames_appendField, List.nodup_append]
    refine ⟨h, List.nodup_singleton m, ?_⟩
    intro a ha hb
    rw [List.mem_singleton] at hb
    exact hm' (hb ▸ ha)

lemma fieldNames_nodup_formatStep {src : Catalog} {t1 t2 : String × String}
    {c : Catalog} {fid : String} (h : (fieldNames c).Nodup) :
    (fieldNames (formatStep src t1 t2 c fid)).Nodup := by
  simp only [formatStep]
  exact fieldNames_nodup_ite_append (fieldNames_nodup_ite_append h)

lemma fieldNames_nodup_foldl {src : Catalog} {t1 t2 : String × String}
    {l : List String} {c : Catalog} (h : (fieldNames c).Nodup) :
    (fieldNames (l.foldl (formatStep src t1 t2) c)).Nodup := by
  induction l generalizing c with
  | nil => exact h
  | cons a rest ih => exact ih (fieldNames_nodup_formatStep h)

lemma fieldNames_nodup_formatBody {t1 t2 : String × String} {l : List String}
    {src cat1 : Catalog} (h : (fieldNames cat1).Nodup) :
    (fieldNames (formatBody t1 t2 l src cat1)).Nodup := by
  simp only [formatBody]
  exact fieldNames_nodup_ite_append (fieldNames_nodup_ite_append
    (fieldNames_nodup_ite_append (fieldNames_nodup_foldl
      (fieldNames_nodup_ite_append h))))

lemma fieldNames_nodup_format_catalog {t1 t2 : String × String} {l : List String}
    {src cat0 : Catalog} (h : (fieldNames cat0).Nodup) :
    (fieldNames (format_catalog t1 t2 l src cat0)).Nodup := by
  simp only [format_catalog]
  split
  · exact fieldNames_nodup_formatBody (by simp [fieldNames])
  · exact fieldNames_nodup_formatBody h

lemma hasField_formatBody_mono {t1 t2 : String × String} {l : List String}
    {src cat1 : Catalog} {m : String}
    (hm : hasField (l.foldl (formatStep src t1 t2)
      (if hasField cat1 "label" then cat1
       else appendField cat1 "label" (getField src "label"))) m = true) :
    hasField (formatBody t1 t2 l src cat1) m = true := by
  simp only [formatBody]
  exact hasField_ite_append_mono (hasField_ite_append_mono (hasField_ite_append_mono hm))

lemma hasField_format_catalog_of_mem {t1 t2 : String × String} {l : List String}
    {src cat0 : Catalog} {fid : String} (hmem : fid ∈ l) :
    hasField (format_catalog t1 t2 l src cat0) (fmtT t1 fid) = true ∧
    hasField (format_catalog t1 t2 l src cat0) (fmtT t2 fid) = true := by
  simp only [format_catalog]
  exact ⟨hasField_formatBody_mono (hasField_foldl_of_mem hmem).1,
         hasField_formatBody_mono (hasField_foldl_of_mem hmem).2⟩

lemma foldl_formatStep_id {src : Catalog} {t1 t2 : String × String}
    {l : List String} {c : Catalog}
    (hloop : ∀ fid ∈ l, hasField c (fmtT t1 fid) = true ∧ hasField c (fmtT t2 fid) = true) :
    l.foldl (formatStep src t1 t2) c = c := by
  induction l with
  | nil => rfl
  | cons a rest ih =>
    rw [List.foldl_cons, formatStep_eq_self (hloop a (by simp)).1 (hloop a (by simp)).2]
    exact ih (fun fid h => hloop fid (List.mem_cons_of_mem _ h))

lemma formatBody_eq_self {t1 t2 : String × String} {l : List String}
    {src c : Catalog}
    (hlabel : hasField c "label" = true)
    (hloop : ∀ fid ∈ l, hasField c (fmtT t1 fid) = true ∧ hasField c (fmtT t2 fid) = true)
    (hcontext : hasField c "context" = true)
    (hzspec : hasField c "zspec" = true)
    (hstring : hasField c "string_data" = true) :
    formatBody t1 t2 l src c = c := by
  simp only [formatBody]
  rw [if_pos hlabel, foldl_formatStep_id hloop, if_pos hcontext, if_pos hzspec,
      if_pos hstring]

lemma hasField_formatBody_label {t1 t2 : String × String} {l : List String}
    {src cat1 : Catalog} :
    hasField (formatBody t1 t2 l src cat1) "label" = true := by
  simp only [formatBody]
  exact hasField_ite_append_mono (hasField_ite_append_mono (hasField_ite_append_mono
    (hasField_foldl_mono hasField_ite_append_self)))

lemma hasField_formatBody_context {t1 t2 : String × String} {l : List String}
    {src cat1 : Catalog} :
    hasField (formatBody t1 t2 l src cat1) "context" = true := by
  simp only [formatBody]
  exact hasField_ite_append_mono (hasField_ite_append_mono hasField_ite_append_self)

lemma hasField_formatBody_zspec {t1 t2 : String × String} {l : List String}
    {src cat1 : Catalog} :
    hasField (formatBody t1 t2 l src cat1) "zspec" = true := by
  simp only [formatBody]
  exact hasField_ite_append_mono hasField_ite_append_self

lemma hasField_formatBody_string_data {t1 t2 : String × String} {l : List String}
    {src cat1 : Catalog} :
    hasField (formatBody t1 t2 l src cat1) "string_data" = true := by
  simp only [formatBody]
  exact hasField_ite_append_self

lemma numRows_formatBody (t1 t2 : String × String) (l : List String)
    (src cat1 : Catalog) :
    (formatBody t1 t2 l src cat1).numRows = cat1.numRows := by
  simp only [formatBody]
  rw [numRows_ite_append, numRows_ite_append, numRows_ite_append, numRows_foldl,
      numRows_ite_append]

/-- C3: the formatted output has exactly one flux and one flux-error column
per configured filter, named by the supplied templates, and re-invoking
`format_catalog` on an already-formatted catalog changes nothing: no column
is duplicated or recomputed. -/
theorem format_catalog_idempotent_columns
    (t1 t2 : String × String) (filters : List String) (src cat0 : Catalog)
    (hnd : (fieldNames cat0).Nodup) :
    (∀ fid ∈ filters,
      (fieldNames (format_catalog t1 t2 filters src cat0)).count (fmtT t1 fid) = 1 ∧
      (fieldNames (format_catalog t1 t2 filters src cat0)).count (fmtT t2 fid) = 1) ∧
    format_catalog t1 t2 filters src (format_catalog t1 t2 filters src cat0) =
      format_catalog t1 t2 filters src cat0 := by
  have hndout : (fieldNames (format_catalog t1 t2 filters src cat0)).Nodup :=
    fieldNames_nodup_format_catalog hnd
  constructor
  · intro fid hmem
    obtain ⟨h1, h2⟩ := @hasField_format_catalog_of_mem t1 t2 filters src cat0 fid hmem
    exact ⟨List.count_eq_one_of_mem hndout (hasField_iff.mp h1),
           List.count_eq_one_of_mem hndout (hasField_iff.mp h2)⟩
  · set out := format_catalog t1 t2 filters src cat0 with hout
    by_cases hz : out.numRows = 0
    · by_cases hc0 : cat0.numRows = 0
      · rw [format_catalog, if_pos hz, hout, format_catalog, if_pos hc0]
      · exfalso
        apply hc0
        have hnr : out.numRows = cat0.numRows := by
          rw [hout, format_catalog, if_neg hc0, numRows_formatBody]
        rw [hnr] at hz
        exact hz
    · rw [format_catalog, if_neg hz]
      have h1 : hasField out "label" = true := by
        rw [hout]
        exact hasField_formatBody_label
      have h2 : hasField out "context" = true := by
        rw [hout]
        exact hasField_formatBody_context
      have h3 : hasField out "zspec" = true := by
        rw [hout]
        exact hasField_formatBody_zspec
      have h4 : hasField out "string_data" = true := by
        rw [hout]
        exact hasField_formatBody_string_data
      refine formatBody_eq_self h1 ?_ h2 h3 h4
      intro fid hmem
      rw [hout]
      exact hasField_format_catalog_of_mem hmem

/-- Witness for C3: on the example source, the formatted catalog carries the
f062 flux column exactly once. -/
theorem format_catalog_idempotent_columns_witness :
    (fieldNames (format_catalog segTmpl segErrTmpl (get_roman_filter_list false) srcEx
      ⟨0, []⟩)).count "segment_f062_flux" = 1 :=
  ((format_catalog_idempotent_columns segTmpl segErrTmpl (get_roman_filter_list false)
    srcEx ⟨0, []⟩ (by decide)).1 "f062" (by decide)).1

/-! ## Lemmas about sampling -/

lemma chooseNoReplace_mem {f : Nat → Nat} :
    ∀ {k : Nat} {p : List Nat} {x : Nat}, x ∈ chooseNoReplace f k p → x ∈ p := by
  intro k
  induction k with
  | zero => intro p x hx; cases hx
  | succ k ih =>
    intro p x hx
    cases p with
    | nil => cases hx
    | cons a t =>
      rw [chooseNoReplace] at hx
      rcases List.mem_cons.mp hx with hx | hx
      · have hi : f k % (a :: t).length < (a :: t).length :=
          Nat.mod_lt _ (by simp)
        rw [hx, List.getD_eq_getElem?_getD, List.getElem?_eq_getElem hi]
        exact List.getElem_mem _
      · exact List.mem_of_mem_eraseIdx (ih hx)

lemma getElem_not_mem_eraseIdx :
    ∀ (p : List Nat) (i : Nat) (h : i < p.length), p.Nodup → p[i] ∉ p.eraseIdx i := by
  intro p
  induction p with
  | nil => intro i h; cases h
  | cons a t ih =>
    intro i h hnd
    cases i with
    | zero =>
      simp only [List.eraseIdx, List.getElem_cons_zero]
      exact (List.nodup_cons.mp hnd).1
    | succ j =>
      have hj : j < t.length := by simpa using h
      simp only [List.eraseIdx, List.getElem_cons_succ]
      rw [List.mem_cons]
      push_neg
      constructor
      · intro he
        exact (List.nodup_cons.mp hnd).1 (he ▸ List.getElem_mem hj)
      · exact ih j hj (List.nodup_cons.mp hnd).2

lemma chooseNoReplace_nodup {f : Nat → Nat} :
    ∀ {k : Nat} {p : List Nat}, p.Nodup → (chooseNoReplace f k p).Nodup := by
  intro k
  induction k with
  | zero => intro p _; exact List.nodup_nil
  | succ k ih =>
    intro p hnd
    cases p with
    | nil => exact List.nodup_nil
    | cons a t =>
      rw [chooseNoReplace, List.nodup_cons]
      have hi : f k % (a :: t).length < (a :: t).length := Nat.mod_lt _ (by simp)
      constructor
      · intro hmem
        have hx := chooseNoReplace_mem hmem
        rw [List.getD_eq_getElem?_getD, List.getElem?_eq_getElem hi] at hx
        exact getElem_not_mem_eraseIdx _ _ hi hnd hx
      · exact ih (hnd.sublist (List.eraseIdx_sublist _ _))

lemma getD_mem_dropLast (l : List (List ℚ)) (i : Nat) (h : i < l.length - 1) :
    l.getD i [] ∈ l.dropLast := by
  have hi : i < l.length := by omega
  have hd : i < l.dropLast.length := by simpa [List.length_dropLast] using h
  rw [List.getD_eq_getElem?_getD, List.getElem?_eq_getElem hi]
  have : l.dropLast[i] = l[i] := List.getElem_dropLast l i hd
  rw [Option.getD_some, ← this]
  exact List.getElem_mem hd

/-- C4 counterexample: requesting 3 rows from a 2-row table, the claim demands
an error, yet `create_random_catalog` returns a catalog — and one made of the
first row repeated three times, so the draw is also with replacement. -/
theorem create_random_catalog_oversample_counterexample :
    create_random_catalog tblTwo 3 42 = Except.ok [[1], [1], [1]] := by rfl

/-- C4 (amended): `SimulatedCatalog._pick_random_lines` samples without
replacement (the chosen indices are pairwise distinct) and raises an error
naming both the requested and the available counts when the request exceeds
the rows available; `create_random_catalog`, in contrast, draws indices
independently (with replacement) from [0, len-1) and returns a catalog without
error for any requested size, whenever the table has at least two rows. -/
theorem sampling_replacement_and_errors
    (f : Nat → Nat) (d : List (List ℚ)) (num1 num2 : Int)
    (t : List (List ℚ)) (n seed : Nat)
    (hover : num1 > (d.length : Int))
    (hpos : 0 < num2) (hle : num2 ≤ (d.length : Int)) (h2 : 2 ≤ t.length) :
    pick_random_lines f (some d) num1 =
      Except.error (requested_available_msg num1 d.length) ∧
    pick_random_lines f (some d) num2 =
      Except.ok (some ((chooseNoReplace f num2.toNat (List.range d.length)).map
        (fun i => d.getD i []))) ∧
    (chooseNoReplace f num2.toNat (List.range d.length)).Nodup ∧
    ∃ rows, create_random_catalog t n seed = Except.ok rows ∧ rows.length = n := by
  refine ⟨?_, ?_, chooseNoReplace_nodup (List.nodup_range _), ?_⟩
  · have h0 : (0 : Int) < num1 := by omega
    simp only [pick_random_lines]
    rw [if_pos h0, if_pos hover]
  · simp only [pick_random_lines]
    rw [if_pos hpos, if_neg (not_lt.mpr hle)]
  · have hm : ¬ ((t.length : Int) - 1 ≤ 0) := by omega
    simp only [create_random_catalog, integersDraws]
    rw [if_neg hm]
    exact ⟨_, rfl, by simp⟩

/-- Witness for the amended C4: a 2-row table, an oversized request of 5, a
within-range request of 2, and a 3-row table for `create_random_catalog`. -/
theorem sampling_replacement_and_errors_witness :
    pick_random_lines (fun i => i * 7 + 3) (some tblTwo) 5 =
      Except.error (requested_available_msg 5 tblTwo.length) ∧
    pick_random_lines (fun i => i * 7 + 3) (some tblTwo) 2 =
      Except.ok (some ((chooseNoReplace (fun i => i * 7 + 3) (2 : Int).toNat
        (List.range tblTwo.length)).map (fun i => tblTwo.getD i []))) ∧
    (chooseNoReplace (fun i => i * 7 + 3) (2 : Int).toNat
      (List.range tblTwo.length)).Nodup ∧
    ∃ rows, create_random_catalog tblThree 4 11 = Except.ok rows ∧
      rows.length = 4 :=
  sampling_replacement_and_errors (fun i => i * 7 + 3) tblTwo 5 2 tblThree 4 11
    (by decide) (by decide) (by decide) (by decide)

/-- C8: `create_random_catalog` is deterministic in its seed: two calls with
the same table, the same n and the same seed yield identical row selections
(the embedding derives every random draw purely from the seed). -/
theorem create_random_catalog_deterministic
    (t1 t2 : List (List ℚ)) (n1 n2 s1 s2 : Nat)
    (ht : t1 = t2) (hn : n1 = n2) (hs : s1 = s2) :
    create_random_catalog t1 n1 s1 = create_random_catalog t2 n2 s2 := by
  subst ht
  subst hn
  subst hs
  rfl

/-- Witness for C8: two runs on the three-row table with seed 99 agree. -/
theorem create_random_catalog_deterministic_witness :
    create_random_catalog tblThree 2 99 = create_random_catalog tblThree 2 99 :=
  create_random_catalog_deterministic tblThree tblThree 2 2 99 99 rfl rfl rfl

/-- C9: the index draw of `create_random_catalog` ranges over the half-open
interval [0, len(table) - 1), so every sampled row comes from the table
without its last row, and a successful sample forces at least two rows — a
single-row table can never be sampled (the draw errors on the empty range). -/
theorem create_random_catalog_half_open
    (t : List (List ℚ)) (n seed : Nat) (rows : List (List ℚ))
    (hok : create_random_catalog t n seed = Except.ok rows) :
    (∀ r ∈ rows, r ∈ t.dropLast) ∧ 2 ≤ t.length := by
  simp only [create_random_catalog, integersDraws] at hok
  by_cases hc : ((t.length : Int) - 1 ≤ 0)
  · rw [if_pos hc] at hok
    simp [Except.map] at hok
  · rw [if_neg hc] at hok
    have hlen : 2 ≤ t.length := by omega
    refine ⟨?_, hlen⟩
    simp only [Except.map, Except.ok.injEq] at hok
    intro r hr
    rw [← hok, List.map_map, List.mem_map] at hr
    obtain ⟨j, _, hj⟩ := hr
    set v : Int := 0 + (seedStream seed j : Int) % ((t.length : Int) - 1 - 0) with hv
    have hm : (0 : Int) < (t.length : Int) - 1 - 0 := by omega
    have hge : 0 ≤ (seedStream seed j : Int) % ((t.length : Int) - 1 - 0) :=
      Int.emod_nonneg _ (ne_of_gt hm)
    have hlt : (seedStream seed j : Int) % ((t.length : Int) - 1 - 0) <
        (t.length : Int) - 1 - 0 := Int.emod_lt_of_pos _ hm
    have hvN : v.toNat < t.length - 1 := by omega
    rw [← hj]
    exact getD_mem_dropLast t v.toNat hvN

/-- Witness for C9: the two-element sample from the three-row table avoids the
last row. -/
theorem create_random_catalog_half_open_witness :
    (∀ r ∈ rows9, r ∈ tblThree.dropLast) ∧ 2 ≤ tblThree.length :=
  create_random_catalog_half_open tblThree 2 7 rows9 (by rfl)

/-! ## Lemmas about tables and update_fluxes -/

lemma getCol_cons (a : String × List ℚ) (t : ATable) (m : String) :
    getCol (a :: t) m = if (a.1 == m) = true then a.2 else getCol t m := by
  by_cases h : (a.1 == m) = true
  · simp [getCol, List.find?_cons_of_pos, h]
  · simp [getCol, List.find?_cons_of_neg, h]

lemma getCol_map_set (t : ATable) (n : String) (v : List ℚ) (h : hasCol t n = true) :
    getCol (t.map (fun p => if p.1 == n then (n, v) else p)) n = v := by
  induction t with
  | nil => simp [hasCol] at h
  | cons a t ih =>
    by_cases ha : (a.1 == n) = true
    · simp only [List.map_cons, if_pos ha, getCol_cons]
      rw [if_pos (by simp)]
    · have ht : hasCol t n = true := by
        simp only [hasCol, List.any_cons, ha, Bool.false_or] at h
        exact h
      simp only [List.map_cons, if_neg ha, getCol_cons]
      exact ih ht

lemma getCol_map_set_ne (t : ATable) {n m : String} (v : List ℚ) (h : m ≠ n) :
    getCol (t.map (fun p => if p.1 == n then (n, v) else p)) m = getCol t m := by
  induction t with
  | nil => rfl
  | cons a t ih =>
    by_cases ha : (a.1 == n) = true
    · have h1 : (n == m) = false := by
        rw [beq_eq_false_iff_ne]
        exact fun he => h he.symm
      have h2 : (a.1 == m) = false := by
        rw [beq_eq_false_iff_ne, beq_iff_eq.mp ha]
        exact fun he => h he.symm
      simp only [List.map_cons, if_pos ha, getCol_cons]
      rw [if_neg (by simp [h1]), if_neg (by simp [h2])]
      exact ih
    · simp only [List.map_cons, if_neg ha, getCol_cons]
      by_cases ham : (a.1 == m) = true
      · rw [if_pos ham, if_pos ham]
      · rw [if_neg ham, if_neg ham]
        exact ih

lemma getCol_setCol_self (t : ATable) (n : String) (v : List ℚ) :
    getCol (setCol t n v) n = v := by
  unfold setCol
  split
  · next h => exact getCol_map_set t n v h
  · next h =>
    have hnone : t.find? (fun p => p.1 == n) = none := by
      rw [List.find?_eq_none]
      intro p hp hpe
      exact h (List.any_eq_true.mpr ⟨p, hp, hpe⟩)
    simp [getCol, List.find?_append, hnone]

lemma getCol_setCol_ne (t : ATable) {n m : String} (v : List ℚ) (h : m ≠ n) :
    getCol (setCol t n v) m = getCol t m := by
  unfold setCol
  split
  · exact getCol_map_set_ne t v h
  · unfold getCol
    rw [List.find?_append]
    cases hf : t.find? (fun p => p.1 == m) with
    | some p => simp [hf]
    | none =>
      have : (n == m) = false := by
        rw [beq_eq_false_iff_ne]
        exact fun he => h he.symm
      simp [hf, List.find?_cons, this]

lemma colnamesA_setCol_of_has (t : ATable) (n : String) (v : List ℚ)
    (h : hasCol t n = true) :
    colnamesA (setCol t n v) = colnamesA t := by
  unfold setCol
  rw [if_pos h]
  unfold colnamesA
  rw [List.map_map]
  apply List.map_congr_left
  intro p _
  by_cases hp1 : (p.1 == n) = true
  · simp [Function.comp, hp1, (beq_iff_eq.mp hp1).symm]
  · simp [Function.comp, hp1]

lemma hasCol_eq_any_colnames (t : ATable) (m : String) :
    hasCol t m = (colnamesA t).any (fun x => x == m) := by
  induction t with
  | nil => rfl
  | cons a t ih =>
    simp only [hasCol, colnamesA, List.map_cons, List.any_cons] at ih ⊢
    rw [ih]

lemma hasCol_setCol_of_has {t : ATable} {n : String} {v : List ℚ}
    (h : hasCol t n = true) (m : String) :
    hasCol (setCol t n v) m = hasCol t m := by
  rw [hasCol_eq_any_colnames, colnamesA_setCol_of_has t n v h, ← hasCol_eq_any_colnames]

lemma colnamesA_updateStep (target flux : ATable) (as : Bool) (ref : String)
    (sf : Option (List ℚ)) (u : ATable) (cn : String) :
    colnamesA (updateStep target flux as ref sf u cn) = colnamesA u := by
  unfold updateStep
  split
  · next h =>
    split
    · exact colnamesA_setCol_of_has _ _ _ h
    · split <;> exact colnamesA_setCol_of_has _ _ _ h
  · rfl

lemma hasCol_updateStep (target flux : ATable) (as : Bool) (ref : String)
    (sf : Option (List ℚ)) (u : ATable) (cn m : String) :
    hasCol (updateStep target flux as ref sf u cn) m = hasCol u m := by
  rw [hasCol_eq_any_colnames, colnamesA_updateStep, ← hasCol_eq_any_colnames]

lemma getCol_updateStep_ne {target flux : ATable} {as : Bool} {ref : String}
    {sf : Option (List ℚ)} {u : ATable} {cn m : String} (h : m ≠ cn) :
    getCol (updateStep target flux as ref sf u cn) m = getCol u m := by
  unfold updateStep
  split
  · split
    · exact getCol_setCol_ne _ _ h
    · split <;> exact getCol_setCol_ne _ _ h
  · rfl

lemma getCol_updateStep_self {target flux : ATable} {as : Bool} {ref : String}
    {sf : Option (List ℚ)} {u : ATable} {cn : String} (h : hasCol u cn = true) :
    getCol (updateStep target flux as ref sf u cn) cn =
      (if cn == ref then (getCol target ref).map (fun x => x * fudge_factor)
       else if as then
         scale_flux ((njyToMgyCol (getCol flux (segName cn))).map
           (fun x => x * fudge_factor)) sf
       else (njyToMgyCol (getCol flux (segName cn))).map
         (fun x => x * fudge_factor)) := by
  unfold updateStep
  rw [if_pos h]
  by_cases hc : (cn == ref) = true
  · rw [if_pos hc, if_pos hc, getCol_setCol_self]
  · rw [if_neg hc, if_neg hc]
    by_cases ha : as = true
    · rw [if_pos ha, if_pos ha, getCol_setCol_self]
    · rw [if_neg ha, if_neg ha, getCol_setCol_self]

lemma getCol_foldl_updateStep_not_mem {target flux : ATable} {as : Bool}
    {ref : String} {sf : Option (List ℚ)} {l : List String} {u : ATable}
    {cn : String} (hn : cn ∉ l) :
    getCol (l.foldl (updateStep target flux as ref sf) u) cn = getCol u cn := by
  induction l generalizing u with
  | nil => rfl
  | cons a rest ih =>
    rw [List.foldl_cons, ih (fun h => hn (List.mem_cons_of_mem _ h)),
        getCol_updateStep_ne (fun he => hn (by rw [he]; exact List.mem_cons_self a rest))]

lemma hasCol_foldl_updateStep (target flux : ATable) (as : Bool) (ref : String)
    (sf : Option (List ℚ)) (l : List String) (u : ATable) (m : String) :
    hasCol (l.foldl (updateStep target flux as ref sf) u) m = hasCol u m := by
  induction l generalizing u with
  | nil => rfl
  | cons a rest ih => rw [List.foldl_cons, ih, hasCol_updateStep]

lemma getCol_foldl_updateStep_mem {target flux : ATable} {as : Bool}
    {ref : String} {sf : Option (List ℚ)} {l : List String} {u : ATable}
    {cn : String} (hnd : l.Nodup) (hmem : cn ∈ l) (hpres : hasCol u cn = true) :
    getCol (l.foldl (updateStep target flux as ref sf) u) cn =
      (if cn == ref then (getCol target ref).map (fun x => x * fudge_factor)
       else if as then
         scale_flux ((njyToMgyCol (getCol flux (segName cn))).map
           (fun x => x * fudge_factor)) sf
       else (njyToMgyCol (getCol flux (segName cn))).map
         (fun x => x * fudge_factor)) := by
  induction l generalizing u with
  | nil => cases hmem
  | cons a rest ih =>
    obtain ⟨hna, hndr⟩ := List.nodup_cons.mp hnd
    rcases List.mem_cons.mp hmem with he | he
    · subst he
      rw [List.foldl_cons, getCol_foldl_updateStep_not_mem hna,
          getCol_updateStep_self hpres]
    · rw [List.foldl_cons]
      exact ih hndr he (by rw [hasCol_updateStep]; exact hpres)

lemma roman_filter_list_upper_eq :
    get_roman_filter_list true =
      ["F062", "F087", "F106", "F129", "F146", "F158", "F184", "F213"] := by rfl

lemma mem_filter_list_ne_labels {cn : String} (h : cn ∈ get_roman_filter_list true) :
    cn ≠ "label" ∧ cn ≠ "redshift_true" := by
  rw [roman_filter_list_upper_eq] at h
  simp only [List.mem_cons, List.mem_singleton, List.not_mem_nil, or_false] at h
  rcases h with h | h | h | h | h | h | h | h <;> subst h <;> exact ⟨by decide, by decide⟩

set_option maxHeartbeats 2000000 in
/-- C5: with the default reference filter F213, `update_fluxes` without
scaling sets the reference column to the target value times the fudge factor
100 and every other configured filter column present in the target to
`njy_to_mgy(segment_<filter>_flux) * 100`; with scaling enabled, every
non-reference column is additionally scaled per object by
`target.F213 / njy_to_mgy(flux.segment_f213_flux)`. -/
theorem update_fluxes_reference_and_conversion
    (target flux : ATable) (u v : ATable)
    (hu : update_fluxes target flux false "F213" = Except.ok u)
    (hv : update_fluxes target flux true "F213" = Except.ok v)
    (cn : String) (hcn : cn ∈ get_roman_filter_list true)
    (hpres : hasCol target cn = true) :
    (cn = "F213" →
      getCol u "F213" = (getCol target "F213").map (fun x => x * fudge_factor) ∧
      getCol v "F213" = (getCol target "F213").map (fun x => x * fudge_factor)) ∧
    (cn ≠ "F213" →
      getCol u cn =
        (njyToMgyCol (getCol flux (segName cn))).map (fun x => x * fudge_factor) ∧
      getCol v cn = scale_flux
        ((njyToMgyCol (getCol flux (segName cn))).map (fun x => x * fudge_factor))
        (some (List.zipWith (fun a b => a / b) (getCol target "F213")
          (njyToMgyCol (getCol flux (segName "F213")))))) := by
  obtain ⟨hlbl, hrt⟩ := mem_filter_list_ne_labels hcn
  have hnd : (get_roman_filter_list true).Nodup := by
    rw [roman_filter_list_upper_eq]
    decide
  have hupper : strUpper "F213" = "F213" := rfl
  simp only [update_fluxes, hupper] at hu hv
  by_cases hfz : numRowsA flux = 0
  · rw [if_pos hfz] at hu
    cases hu
  · rw [if_neg hfz] at hu hv
    cases hu
    cases hv
    constructor
    · intro hce
      subst hce
      constructor
      · rw [getCol_setCol_ne _ _ (by decide), getCol_setCol_ne _ _ (by decide),
            getCol_foldl_updateStep_mem hnd hcn hpres, if_pos (by decide)]
      · rw [getCol_setCol_ne _ _ (by decide), getCol_setCol_ne _ _ (by decide),
            getCol_foldl_updateStep_mem hnd hcn hpres, if_pos (by decide)]
    · intro hne
      have hbne : ¬ ((cn == "F213") = true) := by
        rw [beq_iff_eq]
        exact hne
      constructor
      · rw [getCol_setCol_ne _ _ hrt, getCol_setCol_ne _ _ hlbl,
            getCol_foldl_updateStep_mem hnd hcn hpres, if_neg hbne,
            if_neg (by decide)]
      · rw [getCol_setCol_ne _ _ hrt, getCol_setCol_ne _ _ hlbl,
            getCol_foldl_updateStep_mem hnd hcn hpres, if_neg hbne,
            if_pos rfl]
        rw [if_pos trivial]

/-- Witness for C5: the spec's concrete example, evaluated on the F184 band. -/
theorem update_fluxes_reference_and_conversion_witness :
    getCol u5 "F184" =
      (njyToMgyCol (getCol flx5 (segName "F184"))).map (fun x => x * fudge_factor) ∧
    getCol v5 "F184" = scale_flux
      ((njyToMgyCol (getCol flx5 (segName "F184"))).map (fun x => x * fudge_factor))
      (some (List.zipWith (fun a b => a / b) (getCol tgt5 "F213")
        (njyToMgyCol (getCol flx5 (segName "F213"))))) :=
  (update_fluxes_reference_and_conversion tgt5 flx5 u5 v5 (by rfl) (by rfl) "F184"
    (by decide) (by decide)).2 (by decide)

/-! ## Lemmas about the heap model, the process stages and the trimming -/

lemma writeColS_getQ_ne {σ : Store} {r j : Nat} {n : String} {v : List ℚ}
    (h : j ≠ r) :
    (writeColS σ r n v)[j]? = σ[j]? := by
  unfold writeColS
  exact List.getElem?_set_ne (fun he => h he.symm)

lemma updateStepS_getQ_ne {tR fR newRef : Nat} {as : Bool} {ref : String}
    {sf : Option (List ℚ)} {σ : Store} {cn : String} {j : Nat} (h : j ≠ newRef) :
    (updateStepS tR fR newRef as ref sf σ cn)[j]? = σ[j]? := by
  unfold updateStepS
  split
  · split
    · exact writeColS_getQ_ne h
    · split <;> exact writeColS_getQ_ne h
  · rfl

lemma foldl_updateStepS_getQ_ne {tR fR newRef : Nat} {as : Bool} {ref : String}
    {sf : Option (List ℚ)} {l : List String} {σ : Store} {j : Nat} (h : j ≠ newRef) :
    (l.foldl (updateStepS tR fR newRef as ref sf) σ)[j]? = σ[j]? := by
  induction l generalizing σ with
  | nil => rfl
  | cons a rest ih => rw [List.foldl_cons, ih, updateStepS_getQ_ne h]

/-- C10: `update_fluxes` never mutates its target catalog: the copy gets a
fresh reference (the next free slot), every write goes to that reference, and
the table at the target reference is unchanged after the call. -/
theorem update_fluxes_heap_preserves_target
    (σ : Store) (tRef fRef : Nat) (as : Bool) (rf : String)
    (σ' : Store) (nr : Nat) (htRef : tRef < σ.length)
    (hok : update_fluxes_heap σ tRef fRef as rf = Except.ok (σ', nr)) :
    σ'[tRef]? = σ[tRef]? ∧ nr = σ.length ∧ tRef ≠ nr := by
  have hne : tRef ≠ σ.length := Nat.ne_of_lt htRef
  simp only [update_fluxes_heap] at hok
  by_cases hfz : numRowsA (σ.getD fRef []) = 0
  · rw [if_pos hfz] at hok
    cases hok
  · rw [if_neg hfz] at hok
    injection hok with hok
    injection hok with h1 h2
    subst h1
    subst h2
    refine ⟨?_, rfl, hne⟩
    rw [writeColS_getQ_ne hne, writeColS_getQ_ne hne, foldl_updateStepS_getQ_ne hne,
        List.getElem?_append_left htRef]

/-- Witness for C10: the target table at reference 0 of the two-table store
is untouched by the heap run. -/
theorem update_fluxes_heap_preserves_target_witness :
    (heapOut.1)[0]? = store10[0]? ∧ heapOut.2 = store10.length ∧ 0 ≠ heapOut.2 :=
  update_fluxes_heap_preserves_target store10 0 1 false "F213" heapOut.1 heapOut.2
    (by decide) (by rfl)

/-- C6: `RomanCatalogProcess.process` runs the inform (training) stage exactly
when no file exists at the informer model path; that path is the directory
from INFORMER_MODEL_PATH (falling back to LEPHAREWORK, then the empty string)
joined with the caller-chosen model filename; and when the file exists the
estimator is handed the persisted model file. -/
theorem process_informs_iff_model_absent
    (fs : List String) (env : Env) (mf : String) (save : Bool) :
    (Stage.inform ∈ processStages fs env mf save ↔
      informer_model_path env mf ∉ fs) ∧
    (estimator_model fs env mf = ModelSource.file (informer_model_path env mf) ↔
      informer_model_path env mf ∈ fs) ∧
    informer_model_path env mf =
      joinPath ((envGet env "INFORMER_MODEL_PATH").getD
        ((envGet env "LEPHAREWORK").getD "")) mf := by
  have hiff : informer_model_exists fs env mf = true ↔
      informer_model_path env mf ∈ fs := by
    unfold informer_model_exists
    exact List.elem_iff
  refine ⟨?_, ?_, rfl⟩
  · by_cases hex : informer_model_exists fs env mf = true
    · rw [processStages, if_pos hex]
      have hmem := hiff.mp hex
      cases save <;> simp [hmem]
    · rw [processStages, if_neg hex]
      have hmem : informer_model_path env mf ∉ fs := by
        intro hm
        exact hex (hiff.mpr hm)
      cases save <;> simp [hmem]
  · by_cases hex : informer_model_exists fs env mf = true
    · rw [estimator_model, if_pos hex]
      simp [hiff.mp hex]
    · rw [estimator_model, if_neg hex]
      have hmem : informer_model_path env mf ∉ fs := by
        intro hm
        exact hex (hiff.mpr hm)
      simp [hmem]

/-- C7 counterexample: on a band column with one positive sample at index 6
and six zero samples on either side, the written file keeps five leading but
only four trailing padding samples (the slice end `mx + 5` is exclusive), so
the output differs from the spec's symmetric five-sample padding. -/
theorem trimColumn_padding_counterexample :
    trimColumn col7 ≠ trimColumnClaimed col7 := by decide

/-- C7 (amended): for each band, the kept region runs from five samples
before the first positive-throughput sample to four samples after the last
one (the exclusive slice bound `mx + 5`), clipped at the table boundaries;
all other zero-valued tail samples are dropped. -/
theorem trimColumn_padding
    (col : List ℚ) (mn mx : Nat)
    (hmn : (nzIndices col).head? = some mn)
    (hmx : (nzIndices col).getLast? = some mx) :
    trimColumn col =
      (col.take ((mx + 1) + min 4 (col.length - (mx + 1)))).drop (mn - min 5 mn) := by
  have hmem : mx ∈ nzIndices col := List.mem_of_getLast?_eq_some hmx
  have hmxlt : mx < col.length := by
    simp only [nzIndices, List.mem_filter, List.mem_range] at hmem
    exact hmem.1
  have e1 : min col.length (mx + 5) = (mx + 1) + min 4 (col.length - (mx + 1)) := by
    omega
  have e2 : mn - 5 = mn - min 5 mn := by omega
  simp only [trimColumn, hmn, hmx, e1, e2]

/-- Witness for the amended C7: the concrete column keeps indices 1 through
10, that is five zeros before and four after the positive sample at index 6. -/
theorem trimColumn_padding_witness :
    trimColumn col7 =
      (col7.take ((6 + 1) + min 4 (col7.length - (6 + 1)))).drop (6 - min 5 6) :=
  trimColumn_padding col7 6 6 (by decide) (by decide)
